import Mathlib

/-!
Verification of the FHE-experiments trust protocol: the threshold
decryption-meeting logic of `fhe-zama/src/mpc_network.rs` and the
ECDH/AEAD secure channel of `ecdh/src/lib.rs`, shallowly embedded.

The cryptographic primitives (the `blsttc` threshold scheme, the `k256`
Diffie-Hellman group and the `ChaCha20Poly1305` AEAD cipher) are external
libraries treated by the specification as black-box capability interfaces;
they are modelled here by executable toy instances satisfying the
documented contracts, while every function of the repository itself
(`MpcNetwork`, `Actor`, `DecryptionMeeting`, `mpc_decrypt`, `encrypt`,
`decrypt`, `compute_shared_secret`, ...) is translated line by line from
the Rust source.  Randomness (RNG draws) is made explicit as seed
parameters.  A Rust panic (`expect` / `unwrap` / out-of-bounds access) is
modelled by an `Option` returning `none`.
-/

namespace FHEExp

/-- Byte strings (each entry a byte value). -/
abbrev Bytes := List Nat

/-! ## Threshold-encryption primitives

Modelled from the spec: the capability interface
`{ generate(n,t), encrypt(pk,msg), compute_share(sk_share,ct),
verify_share(share,pk_share,ct), combine(shares,pk_set,ct) }` supplied by
the external `blsttc` library.  A ciphertext records the public key it was
encrypted under and the message; a decryption share records the key
material it was derived from, so that verification against a public key
share and combination by a public key set are decidable. -/

/-- Opaque, comparable-by-value ciphertext produced by encrypting under a
public key (here: the master key value). -/
structure Ciphertext where
  pk : Nat
  msg : Bytes
deriving DecidableEq, Repr

/-- A secret key set: the dealer's master secret plus the threshold. -/
structure SecretKeySet where
  threshold : Nat
  master : Nat
deriving DecidableEq, Repr

/-- The published public key set (threshold and public image of the master). -/
structure PublicKeySet where
  threshold : Nat
  master : Nat
deriving DecidableEq, Repr

/-- An actor's secret key share. -/
structure SecretKeyShare where
  master : Nat
  idx : Nat
deriving DecidableEq, Repr

/-- An actor's public key share. -/
structure PublicKeyShare where
  master : Nat
  idx : Nat
deriving DecidableEq, Repr

/-- A decryption share: the deterministic image of a secret key share and a
ciphertext. -/
structure DecryptionShare where
  master : Nat
  idx : Nat
  ct : Ciphertext
deriving DecidableEq, Repr

/-- Errors of the threshold-decryption layer. -/
inductive MpcError where
  | NotEnoughShares
  | CombinationError
deriving DecidableEq, Repr

/-- Modelled from the spec: `SecretKeySet::random(threshold, rng)` of
`blsttc` draws a random master polynomial of degree `threshold`; it never
fails, for any threshold.  The RNG draw is the explicit `seed`. -/
def SecretKeySet.random (threshold : Nat) (seed : Nat) : SecretKeySet :=
  ⟨threshold, seed⟩

/-- `sk_set.public_keys()`. -/
def SecretKeySet.public_keys (s : SecretKeySet) : PublicKeySet :=
  ⟨s.threshold, s.master⟩

/-- `sk_set.secret_key_share(id)`. -/
def SecretKeySet.secret_key_share (s : SecretKeySet) (i : Nat) : SecretKeyShare :=
  ⟨s.master, i⟩

/-- `pk_set.public_key_share(id)`. -/
def PublicKeySet.public_key_share (p : PublicKeySet) (i : Nat) : PublicKeyShare :=
  ⟨p.master, i⟩

/-- `pk_set.public_key()`: the society's master public key. -/
def PublicKeySet.public_key (p : PublicKeySet) : Nat :=
  p.master

/-- Modelled from the spec: `PublicKey::encrypt` — an opaque blob bound to
the public key, supporting structural equality. -/
def pkEncrypt (pk : Nat) (m : Bytes) : Ciphertext :=
  ⟨pk, m⟩

/-- Modelled from the spec: `sk_share.decrypt_share(&ct)` — a deterministic
function of the secret share and the ciphertext. -/
def SecretKeyShare.decrypt_share (s : SecretKeyShare) (ct : Ciphertext) : DecryptionShare :=
  ⟨s.master, s.idx, ct⟩

/-- Modelled from the spec: `pk_share.verify_decryption_share(&sh, &ct)` —
a share verifies iff it is the share this key position would have produced
for this ciphertext. -/
def PublicKeyShare.verify_decryption_share (p : PublicKeyShare)
    (sh : DecryptionShare) (ct : Ciphertext) : Bool :=
  decide (sh = ⟨p.master, p.idx, ct⟩)

/-- `BTreeMap::insert` on the meeting's `actor_id → DecryptionShare` map:
replaces an existing entry for the key, otherwise appends. -/
def mapInsert (m : List (Nat × DecryptionShare)) (k : Nat) (v : DecryptionShare) :
    List (Nat × DecryptionShare) :=
  match m with
  | [] => [(k, v)]
  | (k0, v0) :: rest =>
      if k = k0 then (k, v) :: rest else (k0, v0) :: mapInsert rest k v

/-- Modelled from the spec: `pk_set.decrypt(&shares, &ct)` of `blsttc`
fails with `NotEnoughShares` when fewer than `threshold + 1` shares are
given; combining `threshold + 1` or more valid shares of a ciphertext
encrypted under the matching public key reconstructs the plaintext; a
combination of shares that do not all verify is an internal invariant
violation (`CombinationError`). -/
def PublicKeySet.decrypt (p : PublicKeySet)
    (shares : List (Nat × DecryptionShare)) (ct : Ciphertext) :
    Except MpcError Bytes :=
  if shares.length ≤ p.threshold then
    .error .NotEnoughShares
  else if shares.all (fun kv => decide (kv.2 = ⟨p.master, kv.1, ct⟩)) &&
          decide (ct.pk = p.master) then
    .ok ct.msg
  else
    .error .CombinationError

/-! ## ECDH and SecureChannel primitives (`ecdh/src/lib.rs`)

Modelled from the spec: the Diffie-Hellman capability `{ keygen(), agree(sk,pk) }`
of `k256` as modular exponentiation in a fixed group, and `ChaCha20Poly1305`
as an AEAD whose sealed blob is the plaintext followed by a 16-byte
authentication tag determined by key, nonce and plaintext. -/

/-- Group modulus of the toy Diffie-Hellman group. -/
def dhModulus : Nat := 1009

/-- Group generator of the toy Diffie-Hellman group. -/
def dhGen : Nat := 11

/-- ChaCha20Poly1305 key length in bytes. -/
def keyLen : Nat := 32

/-- ChaCha20Poly1305 nonce length in bytes. -/
def nonceLen : Nat := 12

/-- Poly1305 authentication-tag length in bytes. -/
def tagLen : Nat := 16

/-- Little-endian byte expansion of a natural number, padded to `len` bytes. -/
def natToBytes (len v : Nat) : Bytes :=
  (List.range len).map (fun i => v / 256 ^ i % 256)

/-- `generate_ecdh_keys()`: draws a random ephemeral secret (the explicit
`seed`) and returns it with its public key. -/
def generate_ecdh_keys (seed : Nat) : Nat × Nat :=
  (seed, dhGen ^ seed % dhModulus)

/-- `compute_shared_secret(sk, pk)`: the Diffie-Hellman agreement, returned
as the raw 32 secret bytes. -/
def compute_shared_secret (sk : Nat) (pk : Nat) : Bytes :=
  natToBytes keyLen (pk ^ sk % dhModulus)

/-- Modelled from the spec: the Poly1305 authentication tag over
`(key, nonce, ciphertext)` — any toy function of all three inputs. -/
def mkTag (key nonce c : Bytes) : Bytes :=
  List.replicate tagLen ((key.sum + 2 * nonce.sum + 3 * c.sum + c.length) % 256)

/-- `ChaCha20Poly1305::generate_nonce(OsRng)`: a fresh 12-byte nonce (the
RNG draw is the explicit `seed`). -/
def generateNonce (seed : Nat) : Bytes :=
  natToBytes nonceLen seed

/-- `ecdh::encrypt(cleartext, shared_secret)`: builds the cipher from the
key (`ChaCha20Poly1305::new` panics — `none` — unless the key is exactly 32
bytes), draws a fresh nonce, seals the plaintext and splices the nonce in
front: `nonce ++ sealed`. -/
def encrypt (cleartext : Bytes) (shared_secret : Bytes) (nonceSeed : Nat) :
    Option Bytes :=
  if shared_secret.length = keyLen then
    let nonce := generateNonce nonceSeed
    some (nonce ++ (cleartext ++ mkTag shared_secret nonce cleartext))
  else
    none

/-- The AEAD open check of `cipher.decrypt`: the trailing 16 bytes of the
sealed part must equal the tag recomputed from key, nonce prefix and
ciphertext body. -/
def authCheck (shared_secret obsf : Bytes) : Bool :=
  let nonce := obsf.take nonceLen
  let rest := obsf.drop nonceLen
  decide (tagLen ≤ rest.length) &&
  decide (rest.drop (rest.length - tagLen) =
          mkTag shared_secret nonce (rest.take (rest.length - tagLen)))

/-- `ecdh::decrypt(obsf, shared_secret)`: splits the 12-byte nonce prefix
off, opens the remainder and `unwrap`s the result — a key of the wrong
length, a blob shorter than nonce plus tag, or a failing authentication tag
all end in a panic, modelled as `none`.  On success the plaintext bytes are
returned; the function has no error channel. -/
def decrypt (obsf : Bytes) (shared_secret : Bytes) : Option Bytes :=
  if shared_secret.length = keyLen then
    if authCheck shared_secret obsf then
      some ((obsf.drop nonceLen).take ((obsf.drop nonceLen).length - tagLen))
    else
      none
  else
    none

/-! ## The MPC network (`fhe-zama/src/mpc_network.rs`) -/

/-- An actor: key-share holder with a single-slot ciphertext inbox. -/
structure Actor where
  id : Nat
  pk_share : PublicKeyShare
  sk_share : SecretKeyShare
  msg_inbox : Option Ciphertext
deriving DecidableEq, Repr

/-- `Actor::new`. -/
def Actor.new (id : Nat) (pk_share : PublicKeyShare) (sk_share : SecretKeyShare) :
    Actor :=
  ⟨id, pk_share, sk_share, none⟩

/-- The trusted key dealer / society.  The opaque `tfhe::ServerKey` is a
bare `Nat`; the ECDH key pair is the pair produced by `generate_ecdh_keys`. -/
structure MpcNetwork where
  actors : List Actor
  pk_set : PublicKeySet
  fhe_server_key : Nat
  ecdh_pub_key : Nat
  ecdh_skey : Nat
deriving DecidableEq, Repr

/-- `MpcNetwork::new(n_actors, threshold, fhe_server_key)`: draws a random
secret key set (seed `skSeed`), derives each actor's shares by index, and
draws an ECDH key pair (seed `ecdhSeed`).  No validation of `threshold` is
performed; the constructor is total. -/
def MpcNetwork.new (n_actors threshold : Nat) (fhe_server_key : Nat)
    (skSeed ecdhSeed : Nat) : MpcNetwork :=
  let sk_set := SecretKeySet.random threshold skSeed
  let pk_set := sk_set.public_keys
  let actors := (List.range n_actors).map (fun i =>
    Actor.new i (pk_set.public_key_share i) (sk_set.secret_key_share i))
  let keys := generate_ecdh_keys ecdhSeed
  { actors := actors
    pk_set := pk_set
    fhe_server_key := fhe_server_key
    ecdh_pub_key := keys.2
    ecdh_skey := keys.1 }

/-- `publish_public_key()`: returns the society's public key; no side effects. -/
def MpcNetwork.publish_public_key (net : MpcNetwork) : Nat :=
  net.pk_set.public_key

/-- `get_actor(id)`: indexes the actor vector; a missing index is a panic
(`expect`), modelled as `none`. -/
def MpcNetwork.get_actor (net : MpcNetwork) (i : Nat) : Option Actor :=
  net.actors.get? i

/-- Writing back the mutation of an actor obtained by `get_actor`. -/
def MpcNetwork.set_actor (net : MpcNetwork) (i : Nat) (a : Actor) : MpcNetwork :=
  { net with actors := net.actors.set i a }

/-- `send_message(id, enc_msg)`: overwrites the actor's inbox with the
ciphertext; panics (`none`) when the actor does not exist. -/
def MpcNetwork.send_message (net : MpcNetwork) (i : Nat) (enc_msg : Ciphertext) :
    Option MpcNetwork :=
  match net.get_actor i with
  | none => none
  | some a => some (net.set_actor i { a with msg_inbox := some enc_msg })

/-- A meeting where actors collaborate and decrypt a shared ciphertext. -/
structure DecryptionMeeting where
  pk_set : PublicKeySet
  ciphertext : Option Ciphertext
  dec_shares : List (Nat × DecryptionShare)
deriving DecidableEq, Repr

/-- `start_decryption_meeting()`: a fresh meeting with no bound ciphertext
and no collected shares. -/
def MpcNetwork.start_decryption_meeting (net : MpcNetwork) : DecryptionMeeting :=
  { pk_set := net.pk_set
    ciphertext := none
    dec_shares := [] }

/-- The tail of `accept_decryption_share` after the ciphertext-binding
check: compute the actor's decryption share, verify it against the actor's
public share and insert it keyed by `actor.id`; an invalid share is
dropped with an early return. -/
def DecryptionMeeting.shareStep (m : DecryptionMeeting) (a : Actor)
    (ct : Ciphertext) : DecryptionMeeting × Actor :=
  let dec_share := a.sk_share.decrypt_share ct
  if a.pk_share.verify_decryption_share dec_share ct then
    ({ m with dec_shares := mapInsert m.dec_shares a.id dec_share }, a)
  else
    (m, a)

/-- `accept_decryption_share(&mut self, actor)`: takes the actor's pending
ciphertext out of the inbox (`expect` panics — `none` — on an empty inbox);
the first actor to arrive binds the meeting's ciphertext, a later actor
whose ciphertext differs structurally is silently dropped; otherwise the
share is computed, verified and collected. -/
def DecryptionMeeting.accept_decryption_share (m : DecryptionMeeting)
    (a : Actor) : Option (DecryptionMeeting × Actor) :=
  match a.msg_inbox with
  | none => none
  | some ct =>
      let a2 : Actor := { a with msg_inbox := none }
      match m.ciphertext with
      | some meeting_ct =>
          if ct ≠ meeting_ct then
            some (m, a2)
          else
            some (m.shareStep a2 ct)
      | none =>
          some (({ m with ciphertext := some ct }).shareStep a2 ct)

/-- `decrypt_message()`: `expect`s a bound ciphertext (panic — `none` —
otherwise) and combines the collected shares with the public key set. -/
def DecryptionMeeting.decrypt_message (m : DecryptionMeeting) :
    Option (Except MpcError Bytes) :=
  match m.ciphertext with
  | none => none
  | some ct => some (m.pk_set.decrypt m.dec_shares ct)

/-- `mpc_decrypt(society, ciphertext)`: reads the ids of actors 0, 1, 2
(assuming 3 nodes), delivers the ciphertext to all three, opens one
meeting, drives `accept` for actors 0 and 1 only, and decrypts.  A panic
anywhere is `none`; otherwise the mutated society is returned together
with the `Result` of `decrypt_message`. -/
def mpc_decrypt (society : MpcNetwork) (ciphertext : Ciphertext) :
    Option (MpcNetwork × Except MpcError Bytes) := do
  let alice := (← society.get_actor 0).id
  let bob := (← society.get_actor 1).id
  let clara := (← society.get_actor 2).id
  let s1 ← society.send_message alice ciphertext
  let s2 ← s1.send_message bob ciphertext
  let s3 ← s2.send_message clara ciphertext
  let meeting := s3.start_decryption_meeting
  let aliceActor ← s3.get_actor alice
  let (meeting1, aliceDone) ← meeting.accept_decryption_share aliceActor
  let s4 := s3.set_actor alice aliceDone
  let bobActor ← s4.get_actor bob
  let (meeting2, bobDone) ← meeting1.accept_decryption_share bobActor
  let s5 := s4.set_actor bob bobDone
  let res ← meeting2.decrypt_message
  some (s5, res)

/-- `ecdh_encrypt(msg, target_public_key)` on `MpcNetwork`: derives the
shared secret with the target and seals the message through the channel. -/
def MpcNetwork.ecdh_encrypt (net : MpcNetwork) (msg : Bytes)
    (target_public_key : Nat) (nonceSeed : Nat) : Option Bytes :=
  encrypt msg (compute_shared_secret net.ecdh_skey target_public_key) nonceSeed

/-! ## Theorems -/

/-- Evaluated index list for three-actor societies. -/
theorem range3 : List.range 3 = [0, 1, 2] := rfl

/-- Claim C1: in a society of 3 actors with threshold 1, encrypting any
byte string (the empty one included) under the published society public
key and running `mpc_decrypt` — which delivers the ciphertext to the
actors, collects the two verified shares of actors 0 and 1 in one meeting
and combines them — returns exactly the original message. -/
theorem quorum_roundtrip (m : Bytes) (fk skSeed ecdhSeed : Nat) :
    (mpc_decrypt (MpcNetwork.new 3 1 fk skSeed ecdhSeed)
      (pkEncrypt (MpcNetwork.new 3 1 fk skSeed ecdhSeed).publish_public_key m)).map
        Prod.snd
    = some (Except.ok m) := by
  simp [mpc_decrypt, MpcNetwork.new, range3, Actor.new, SecretKeySet.random,
    SecretKeySet.public_keys, SecretKeySet.secret_key_share, PublicKeySet.public_key_share,
    MpcNetwork.publish_public_key, PublicKeySet.public_key, pkEncrypt,
    MpcNetwork.get_actor, MpcNetwork.set_actor, MpcNetwork.send_message,
    MpcNetwork.start_decryption_meeting, DecryptionMeeting.accept_decryption_share,
    DecryptionMeeting.shareStep, SecretKeyShare.decrypt_share,
    PublicKeyShare.verify_decryption_share, mapInsert,
    DecryptionMeeting.decrypt_message, PublicKeySet.decrypt, Option.bind]

/-- A verification/insertion step never changes the meeting's bound
ciphertext. -/
theorem shareStep_ciphertext (m : DecryptionMeeting) (a : Actor) (ct : Ciphertext) :
    (m.shareStep a ct).1.ciphertext = m.ciphertext := by
  simp only [DecryptionMeeting.shareStep]
  split <;> rfl

/-- Claim C2: the first actor accepted binds the meeting to that actor's
pending ciphertext, and every later accept whose consumed ciphertext
differs structurally from the bound one is silently dropped — the call
returns without error and the meeting (bound ciphertext and collected
share map alike) is unchanged. -/
theorem accept_binds_first_and_drops_mismatch (m : DecryptionMeeting) (a : Actor)
    (ct : Ciphertext) (h : a.msg_inbox = some ct) :
    (m.ciphertext = none →
      ∃ p, m.accept_decryption_share a = some p ∧ p.1.ciphertext = some ct) ∧
    (∀ mct, m.ciphertext = some mct → ct ≠ mct →
      m.accept_decryption_share a = some (m, { a with msg_inbox := none })) := by
  constructor
  · intro hm
    refine ⟨({ m with ciphertext := some ct }).shareStep { a with msg_inbox := none } ct,
      ?_, ?_⟩
    · simp [DecryptionMeeting.accept_decryption_share, h, hm]
    · rw [shareStep_ciphertext]
  · intro mct hm hne
    simp [DecryptionMeeting.accept_decryption_share, h, hm, hne]

/-- Witness for C2 at concrete inputs: an empty meeting binds to the first
actor's ciphertext `⟨5, [9]⟩`; a meeting already bound to `⟨5, [8]⟩` fed the
same actor is left fully unchanged. -/
theorem accept_binds_first_and_drops_mismatch_witness :
    ((Actor.mk 0 ⟨5, 0⟩ ⟨5, 0⟩ (some ⟨5, [9]⟩)).msg_inbox = some ⟨5, [9]⟩) ∧
    (∃ p, (DecryptionMeeting.mk ⟨1, 5⟩ none []).accept_decryption_share
        (Actor.mk 0 ⟨5, 0⟩ ⟨5, 0⟩ (some ⟨5, [9]⟩)) = some p ∧
        p.1.ciphertext = some ⟨5, [9]⟩) ∧
    ((DecryptionMeeting.mk ⟨1, 5⟩ (some ⟨5, [8]⟩) []).accept_decryption_share
        (Actor.mk 0 ⟨5, 0⟩ ⟨5, 0⟩ (some ⟨5, [9]⟩))
      = some (DecryptionMeeting.mk ⟨1, 5⟩ (some ⟨5, [8]⟩) [],
              Actor.mk 0 ⟨5, 0⟩ ⟨5, 0⟩ none)) :=
  ⟨rfl,
   (accept_binds_first_and_drops_mismatch (DecryptionMeeting.mk ⟨1, 5⟩ none [])
     (Actor.mk 0 ⟨5, 0⟩ ⟨5, 0⟩ (some ⟨5, [9]⟩)) ⟨5, [9]⟩ rfl).1 rfl,
   (accept_binds_first_and_drops_mismatch (DecryptionMeeting.mk ⟨1, 5⟩ (some ⟨5, [8]⟩) [])
     (Actor.mk 0 ⟨5, 0⟩ ⟨5, 0⟩ (some ⟨5, [9]⟩)) ⟨5, [9]⟩ rfl).2 ⟨5, [8]⟩ rfl (by decide)⟩

/-- Claim C3: a share that fails verification against the actor's public
share and the bound ciphertext is rejected without counting toward quorum,
and the rejection leaves the meeting — in particular every previously
collected valid share — unchanged. -/
theorem reject_invalid_share_keeps_state (m : DecryptionMeeting) (a : Actor)
    (ct : Ciphertext) (hin : a.msg_inbox = some ct) (hb : m.ciphertext = some ct)
    (hv : a.pk_share.verify_decryption_share (a.sk_share.decrypt_share ct) ct = false) :
    m.accept_decryption_share a = some (m, { a with msg_inbox := none }) := by
  simp [DecryptionMeeting.accept_decryption_share, hin, hb,
    DecryptionMeeting.shareStep, hv]

/-- Witness for C3, the spec's scenario C: a meeting holding one valid
share for ciphertext `⟨5, [1, 2]⟩` receives a well-formed but
verification-failing share for the same ciphertext from a different actor
(whose public share belongs to a foreign master key 7); the collected-share
count after both deliveries is 1, not 2. -/
theorem reject_invalid_share_keeps_state_witness :
    ((Actor.mk 1 ⟨7, 1⟩ ⟨5, 1⟩ (some ⟨5, [1, 2]⟩)).msg_inbox = some ⟨5, [1, 2]⟩) ∧
    ((DecryptionMeeting.mk ⟨1, 5⟩ (some ⟨5, [1, 2]⟩)
        [(0, ⟨5, 0, ⟨5, [1, 2]⟩⟩)]).ciphertext = some ⟨5, [1, 2]⟩) ∧
    (DecryptionMeeting.accept_decryption_share
      (DecryptionMeeting.mk ⟨1, 5⟩ (some ⟨5, [1, 2]⟩) [(0, ⟨5, 0, ⟨5, [1, 2]⟩⟩)])
      (Actor.mk 1 ⟨7, 1⟩ ⟨5, 1⟩ (some ⟨5, [1, 2]⟩))
     = some (DecryptionMeeting.mk ⟨1, 5⟩ (some ⟨5, [1, 2]⟩) [(0, ⟨5, 0, ⟨5, [1, 2]⟩⟩)],
             Actor.mk 1 ⟨7, 1⟩ ⟨5, 1⟩ none)) ∧
    [(0, (⟨5, 0, ⟨5, [1, 2]⟩⟩ : DecryptionShare))].length = 1 :=
  ⟨rfl, rfl,
   reject_invalid_share_keeps_state
     (DecryptionMeeting.mk ⟨1, 5⟩ (some ⟨5, [1, 2]⟩) [(0, ⟨5, 0, ⟨5, [1, 2]⟩⟩)])
     (Actor.mk 1 ⟨7, 1⟩ ⟨5, 1⟩ (some ⟨5, [1, 2]⟩)) ⟨5, [1, 2]⟩ rfl rfl (by decide),
   rfl⟩

/-- Counterexample to claim C4 as stated: a freshly started meeting holds
fewer than `t + 1 = 2` collected shares, yet `decrypt_message` does not
fail with the recoverable `NotEnoughShares`: it panics (`expect` on the
unbound ciphertext), modelled as `none`. -/
theorem decrypt_unbound_meeting_panics_cx :
    ((MpcNetwork.new 3 1 0 0 0).start_decryption_meeting).dec_shares.length < 1 + 1 ∧
    ((MpcNetwork.new 3 1 0 0 0).start_decryption_meeting).decrypt_message = none :=
  ⟨by decide, rfl⟩

/-- Claim C4 as amended: every meeting that has a bound ciphertext and
fewer than `t + 1` collected shares fails with the recoverable
`NotEnoughShares` error rather than returning a plaintext (a meeting with
no bound ciphertext instead panics on `decrypt`). -/
theorem decrypt_insufficient_shares (m : DecryptionMeeting) (ct : Ciphertext)
    (hb : m.ciphertext = some ct)
    (hlen : m.dec_shares.length < m.pk_set.threshold + 1) :
    m.decrypt_message = some (Except.error MpcError.NotEnoughShares) := by
  have hle : m.dec_shares.length ≤ m.pk_set.threshold := Nat.lt_succ_iff.mp hlen
  simp [DecryptionMeeting.decrypt_message, hb, PublicKeySet.decrypt, hle]

/-- Witness for C4 (amended), the second half of the spec's scenario A: a
meeting with threshold 1 fed only actor 2's share fails with
`NotEnoughShares`. -/
theorem decrypt_insufficient_shares_witness :
    ((DecryptionMeeting.mk ⟨1, 5⟩ (some ⟨5, [3]⟩)
        [(2, ⟨5, 2, ⟨5, [3]⟩⟩)]).ciphertext = some ⟨5, [3]⟩) ∧
    ((DecryptionMeeting.mk ⟨1, 5⟩ (some ⟨5, [3]⟩)
        [(2, ⟨5, 2, ⟨5, [3]⟩⟩)]).dec_shares.length < 1 + 1) ∧
    (DecryptionMeeting.mk ⟨1, 5⟩ (some ⟨5, [3]⟩)
        [(2, ⟨5, 2, ⟨5, [3]⟩⟩)]).decrypt_message
      = some (Except.error MpcError.NotEnoughShares) :=
  ⟨rfl, by decide,
   decrypt_insufficient_shares
     (DecryptionMeeting.mk ⟨1, 5⟩ (some ⟨5, [3]⟩) [(2, ⟨5, 2, ⟨5, [3]⟩⟩)])
     ⟨5, [3]⟩ rfl (by decide)⟩

/-- Counterexample to claim C5 as stated: `MpcNetwork::new` does not fail
with `InvalidThreshold` on a degenerate threshold — at `t = 0` and at
`t = 5 ≥ n = 3` it succeeds and produces full key material (3 actors and a
public key set carrying the requested threshold). -/
theorem new_accepts_degenerate_threshold_cx :
    (MpcNetwork.new 3 0 0 0 0).actors.length = 3 ∧
    (MpcNetwork.new 3 0 0 0 0).pk_set.threshold = 0 ∧
    (MpcNetwork.new 3 5 0 0 0).actors.length = 3 ∧
    (MpcNetwork.new 3 5 0 0 0).pk_set.threshold = 5 :=
  ⟨rfl, rfl, rfl, rfl⟩

/-- Claim C5 as amended: the one-time setup performs no threshold
validation at all — for every `(n, t)`, including `t = 0` and `t ≥ n`,
`MpcNetwork::new` succeeds, returning `n` actors and a key set with the
requested threshold; no `InvalidThreshold` error exists in the code. -/
theorem new_total_no_validation (n t fk skSeed ecdhSeed : Nat) :
    (MpcNetwork.new n t fk skSeed ecdhSeed).actors.length = n ∧
    (MpcNetwork.new n t fk skSeed ecdhSeed).pk_set = ⟨t, skSeed⟩ := by
  constructor
  · simp [MpcNetwork.new]
  · rfl

/-- Length of the little-endian byte expansion. -/
theorem natToBytes_length (len v : Nat) : (natToBytes len v).length = len := by
  simp [natToBytes]

/-- Claim C6: for every byte string `m` and every 32-byte key `k`,
`decrypt (encrypt m k) k = m` — `encrypt` emits the fresh nonce prefixed to
the sealed ciphertext as one blob, and `decrypt` splits the fixed-length
nonce prefix back off and opens the remainder, recovering exactly `m`. -/
theorem secure_channel_roundtrip (m k : Bytes) (nonceSeed : Nat)
    (hk : k.length = keyLen) :
    ∃ blob, encrypt m k nonceSeed = some blob ∧ decrypt blob k = some m := by
  refine ⟨generateNonce nonceSeed ++ (m ++ mkTag k (generateNonce nonceSeed) m), ?_, ?_⟩
  · simp [encrypt, hk]
  · have hn : (generateNonce nonceSeed).length = nonceLen := natToBytes_length _ _
    have htag : (mkTag k (generateNonce nonceSeed) m).length = tagLen := by
      simp [mkTag]
    have hdrop :
        (generateNonce nonceSeed ++ (m ++ mkTag k (generateNonce nonceSeed) m)).drop
          nonceLen = m ++ mkTag k (generateNonce nonceSeed) m :=
      List.drop_left' hn
    have htake :
        (generateNonce nonceSeed ++ (m ++ mkTag k (generateNonce nonceSeed) m)).take
          nonceLen = generateNonce nonceSeed :=
      List.take_left' hn
    have hlen : (m ++ mkTag k (generateNonce nonceSeed) m).length - tagLen = m.length := by
      simp [htag]
    have hdropTag : (m ++ mkTag k (generateNonce nonceSeed) m).drop m.length =
        mkTag k (generateNonce nonceSeed) m := List.drop_left _ _
    have htakeM : (m ++ mkTag k (generateNonce nonceSeed) m).take m.length = m :=
      List.take_left _ _
    simp [decrypt, hk, authCheck, hdrop, htake, hlen, hdropTag, htakeM, htag,
      Nat.le_add_left]

/-- Witness for C6 at a concrete 32-byte key, message and nonce draw. -/
theorem secure_channel_roundtrip_witness :
    ((List.replicate 32 0 : Bytes).length = keyLen) ∧
    ∃ blob, encrypt [104, 105] (List.replicate 32 0) 3 = some blob ∧
      decrypt blob (List.replicate 32 0) = some [104, 105] :=
  ⟨by decide, secure_channel_roundtrip [104, 105] (List.replicate 32 0) 3 (by decide)⟩

/-- Counterexample to claim C7 as stated: flipping the first byte of a
genuine encrypted blob makes the AEAD tag check fail, but `decrypt` does
not fail with an `AuthenticationFailure` error value — its Rust return type
is a bare `Vec<u8>` and the failed open is `unwrap`ped, a panic, modelled
as `none`. -/
theorem decrypt_tampered_blob_panics_cx :
    (encrypt [1, 2, 3] (List.replicate 32 7) 9).isSome = true ∧
    ((encrypt [1, 2, 3] (List.replicate 32 7) 9).bind
      (fun b => decrypt (((b.headI + 1) % 256) :: b.tail) (List.replicate 32 7)))
      = none :=
  ⟨rfl, rfl⟩

/-- Claim C7 as amended: for every blob whose AEAD authentication tag does
not verify under the given 32-byte key (tampering or wrong key), `decrypt`
panics on the `unwrap` of the failed open — modelled as `none` — so no
partial or best-effort plaintext is ever produced; the failure is a panic,
not a returned `AuthenticationFailure` error. -/
theorem decrypt_auth_failure_panics (blob k : Bytes) (hk : k.length = keyLen)
    (hauth : authCheck k blob = false) : decrypt blob k = none := by
  simp [decrypt, hk, hauth]

/-- Witness for C7 (amended): a 30-byte all-zero blob fails the tag check
under the all-zero 32-byte key and `decrypt` returns no plaintext. -/
theorem decrypt_auth_failure_panics_witness :
    ((List.replicate 32 0 : Bytes).length = keyLen) ∧
    (authCheck (List.replicate 32 0) (List.replicate 30 0) = false) ∧
    decrypt (List.replicate 30 0) (List.replicate 32 0) = none :=
  ⟨by decide, by decide,
   decrypt_auth_failure_panics (List.replicate 30 0) (List.replicate 32 0)
     (by decide) (by decide)⟩

/-- Claim C8: for every two ECDH keypairs produced by key generation, the
two independently computed Diffie-Hellman agreements coincide:
`compute_shared_secret A.sk B.pk = compute_shared_secret B.sk A.pk`. -/
theorem shared_secret_symm (sa sb : Nat) :
    compute_shared_secret (generate_ecdh_keys sa).1 (generate_ecdh_keys sb).2 =
    compute_shared_secret (generate_ecdh_keys sb).1 (generate_ecdh_keys sa).2 := by
  have h : ∀ x y : Nat,
      (dhGen ^ x % dhModulus) ^ y % dhModulus = dhGen ^ (x * y) % dhModulus := by
    intro x y
    rw [← Nat.pow_mod, ← pow_mul]
  simp only [compute_shared_secret, generate_ecdh_keys, h]
  rw [Nat.mul_comm]

/-- Counterexample to claim C9 as stated: a society of 4 actors with
threshold `t = 2` has at least `t + 1 = 3` actors, yet `mpc_decrypt` —
which accepts shares from actors 0 and 1 only — leaves the meeting below
quorum and returns `NotEnoughShares` instead of reaching quorum. -/
theorem mpc_decrypt_fixed_two_accepts_cx :
    (mpc_decrypt (MpcNetwork.new 4 2 0 0 0)
      (pkEncrypt (MpcNetwork.new 4 2 0 0 0).publish_public_key [104])).map Prod.snd
    = some (Except.error MpcError.NotEnoughShares) := rfl

/-- Claim C9 as amended: `mpc_decrypt` assumes a 3-actor society — it
routes the submitted ciphertext to actors 0, 1 and 2 and drives `accept`
for actors 0 and 1 only before calling `decrypt`, so the meeting reaches
quorum (and decryption succeeds) exactly when the two collected shares
suffice, i.e. when `t ≤ 1`. -/
theorem mpc_decrypt_three_actors_low_threshold (m : Bytes)
    (t fk skSeed ecdhSeed : Nat) (ht : t ≤ 1) :
    (mpc_decrypt (MpcNetwork.new 3 t fk skSeed ecdhSeed)
      (pkEncrypt (MpcNetwork.new 3 t fk skSeed ecdhSeed).publish_public_key m)).map
        Prod.snd
    = some (Except.ok m) := by
  have h2 : ¬ (2 ≤ t) := by omega
  simp [mpc_decrypt, MpcNetwork.new, range3, Actor.new, SecretKeySet.random,
    SecretKeySet.public_keys, SecretKeySet.secret_key_share, PublicKeySet.public_key_share,
    MpcNetwork.publish_public_key, PublicKeySet.public_key, pkEncrypt,
    MpcNetwork.get_actor, MpcNetwork.set_actor, MpcNetwork.send_message,
    MpcNetwork.start_decryption_meeting, DecryptionMeeting.accept_decryption_share,
    DecryptionMeeting.shareStep, SecretKeyShare.decrypt_share,
    PublicKeyShare.verify_decryption_share, mapInsert,
    DecryptionMeeting.decrypt_message, PublicKeySet.decrypt, Option.bind, h2]

/-- Witness for C9 (amended) at `t = 1` and message `[104, 105]`. -/
theorem mpc_decrypt_three_actors_low_threshold_witness :
    (1 ≤ 1) ∧
    (mpc_decrypt (MpcNetwork.new 3 1 7 5 2)
      (pkEncrypt (MpcNetwork.new 3 1 7 5 2).publish_public_key [104, 105])).map
        Prod.snd
    = some (Except.ok [104, 105]) :=
  ⟨by decide, mpc_decrypt_three_actors_low_threshold [104, 105] 1 7 5 2 (by decide)⟩

/-- Claim C10: calling `accept` for an actor whose inbox holds no pending
ciphertext panics — the inbox `take` is unwrapped with `expect`, modelled
as `none` — rather than returning an error or leaving the meeting usable;
a pending ciphertext is an unstated precondition of `accept`. -/
theorem accept_empty_inbox_panics (m : DecryptionMeeting) (a : Actor)
    (h : a.msg_inbox = none) : m.accept_decryption_share a = none := by
  simp [DecryptionMeeting.accept_decryption_share, h]

/-- Witness for C10: a freshly constructed actor (empty inbox) fed to a
fresh meeting makes `accept` panic. -/
theorem accept_empty_inbox_panics_witness :
    ((Actor.new 0 ⟨5, 0⟩ ⟨5, 0⟩).msg_inbox = none) ∧
    ((MpcNetwork.new 3 1 0 5 0).start_decryption_meeting).accept_decryption_share
      (Actor.new 0 ⟨5, 0⟩ ⟨5, 0⟩) = none :=
  ⟨rfl,
   accept_empty_inbox_panics ((MpcNetwork.new 3 1 0 5 0).start_decryption_meeting)
     (Actor.new 0 ⟨5, 0⟩ ⟨5, 0⟩) rfl⟩

end FHEExp
